import Mathlib

/-!
Verification of the binary value-transmission codecs of `postgresql/types/io/lib.py`
(record, array, network, path, no-day interval and oidvector codecs).

Byte buffers are shallowly embedded as `List Nat` (each entry one octet).
Fallible operations return `Except PyErr`.  The primitive width packers live in
`postgresql/python/structlib.py`, which is not part of the sources here; they are
modelled from the specification ("fixed-size big-endian integer/float encoders")
as big-endian two's-complement codecs.
-/

/-- Error conditions raised by the codecs (Python `ValueError`, `struct.error`,
`TypeError`), distinguished by their message. -/
inductive PyErr where
  /-- `struct.error`: a fixed-size field was decoded from a slice of the wrong size. -/
  | structError
  /-- `ValueError("invalid size parameter")` from `net_unpack`. -/
  | invalidSize
  /-- `ValueError("insufficient data left in message")` from `record_unpack`. -/
  | insufficientData
  /-- `ValueError("extra data ... at end of record")` from `record_unpack`. -/
  | extraData
  /-- `ValueError("invalid number of dimensions")` from `array_unpack`. -/
  | invalidDim
  /-- `ValueError` from unpacking fewer than four header bytes in `net_unpack`. -/
  | valueError
  /-- `TypeError` from a misused builtin (e.g. `bytes.ljust` with a `str` fill). -/
  | typeError
deriving DecidableEq, Repr

/-- Decidable equality for `Except` results, used to evaluate the codecs on
concrete buffers. -/
instance exceptDecEq {e a : Type} [DecidableEq e] [DecidableEq a] :
    DecidableEq (Except e a) := fun x y =>
  match x, y with
  | .error u, .error v =>
    if h : u = v then .isTrue (h ▸ rfl) else .isFalse (fun c => h (Except.error.inj c))
  | .ok u, .ok v =>
    if h : u = v then .isTrue (h ▸ rfl) else .isFalse (fun c => h (Except.ok.inj c))
  | .error _, .ok _ => .isFalse (fun c => Except.noConfusion c)
  | .ok _, .error _ => .isFalse (fun c => Except.noConfusion c)

/-- Big-endian interpretation of a byte sequence (`int.from_bytes(bs, "big")`). -/
def beNat (bs : List Nat) : Nat :=
  bs.foldl (fun a b => a * 256 + b) 0

/-- Modelled from the spec: `structlib.ulong_pack`, the big-endian unsigned 32-bit
encoder (`struct.pack("!L", n)`); out-of-range values are reduced mod 2^32, the
spec does not constrain them. -/
def ulong_pack (n : Nat) : List Nat :=
  [n % 2 ^ 32 / 2 ^ 24, n % 2 ^ 32 / 2 ^ 16 % 256, n % 2 ^ 32 / 2 ^ 8 % 256, n % 2 ^ 32 % 256]

/-- Modelled from the spec: `structlib.ulong_unpack` (`struct.unpack("!L", bs)`);
`struct.error` unless the slice is exactly four bytes. -/
def ulong_unpack (bs : List Nat) : Except PyErr Nat :=
  if bs.length = 4 then .ok (beNat bs) else .error .structError

/-- Reinterpret an unsigned 32-bit value as two's-complement signed. -/
def toSigned32 (n : Nat) : Int :=
  if n < 2 ^ 31 then (n : Int) else (n : Int) - 2 ^ 32

/-- Modelled from the spec: `structlib.long_pack`, the big-endian signed 32-bit
encoder (`struct.pack("!l", i)`), two's complement. -/
def long_pack (i : Int) : List Nat :=
  ulong_pack (i % 2 ^ 32).toNat

/-- Modelled from the spec: `structlib.long_unpack` (`struct.unpack("!l", bs)`). -/
def long_unpack (bs : List Nat) : Except PyErr Int :=
  if bs.length = 4 then .ok (toSigned32 (beNat bs)) else .error .structError

/-- `oid_pack = ulong_pack` (source line 22). -/
abbrev oid_pack : Nat → List Nat := ulong_pack

/-- `oid_unpack = ulong_unpack` (source line 23). -/
abbrev oid_unpack : List Nat → Except PyErr Nat := ulong_unpack

/-- `null_sequence = b'\xff\xff\xff\xff'` (source line 32). -/
def null_sequence : List Nat := [255, 255, 255, 255]

/-- Python slice `data[start:stop]`: negative indices count from the end,
out-of-range indices are clamped. -/
def pySlice (data : List Nat) (start stop : Int) : List Nat :=
  let n : Int := data.length
  let s := (if start < 0 then max 0 (n + start) else start).toNat
  let e := (if stop < 0 then max 0 (n + stop) else stop).toNat
  (data.take e).drop s

/-- A slice with nonnegative endpoints is a take-then-drop. -/
theorem pySlice_nat (data : List Nat) (a b : Nat) :
    pySlice data (a : Int) (b : Int) = (data.take b).drop a := by
  simp only [pySlice]
  rw [if_neg (Int.not_lt.mpr (Int.natCast_nonneg a)), if_neg (Int.not_lt.mpr (Int.natCast_nonneg b))]
  simp

/-- Slicing `k` bytes right after a prefix of the buffer reads from the suffix. -/
theorem pySlice_append (a b : List Nat) (k : Nat) :
    pySlice (a ++ b) (a.length : Int) ((a.length : Int) + (k : Int)) = b.take k := by
  have h : ((a.length : Int) + (k : Int)) = ((a.length + k : Nat) : Int) := by push_cast; ring
  rw [h, pySlice_nat]
  rw [List.take_append_eq_append_take]
  rw [List.take_of_length_le (Nat.le_add_right _ _), Nat.add_sub_cancel_left]
  exact List.drop_left a (b.take k)

/-- Length of a slice with nonnegative endpoints. -/
theorem pySlice_nat_length (data : List Nat) (a b : Nat) :
    (pySlice data (a : Int) (b : Int)).length = min b data.length - a := by
  rw [pySlice_nat]; simp

/-- The big-endian bytes of `ulong_pack` decode to the value mod 2^32. -/
theorem beNat_ulong_pack (n : Nat) : beNat (ulong_pack n) = n % 2 ^ 32 := by
  simp only [ulong_pack, beNat, List.foldl]
  omega

theorem ulong_pack_length (n : Nat) : (ulong_pack n).length = 4 := rfl

theorem long_pack_length (i : Int) : (long_pack i).length = 4 := rfl

/-- Round trip for the unsigned 32-bit codec. -/
theorem ulong_unpack_pack (n : Nat) (h : n < 2 ^ 32) :
    ulong_unpack (ulong_pack n) = .ok n := by
  rw [ulong_unpack, if_pos (ulong_pack_length n), beNat_ulong_pack, Nat.mod_eq_of_lt h]

/-- Round trip for the signed 32-bit codec. -/
theorem long_unpack_pack (i : Int) (h1 : -2 ^ 31 ≤ i) (h2 : i < 2 ^ 31) :
    long_unpack (long_pack i) = .ok i := by
  rw [long_unpack, if_pos (long_pack_length i), long_pack, beNat_ulong_pack]
  have hm : (i % 2 ^ 32).toNat % 2 ^ 32 = (i % 2 ^ 32).toNat := by
    apply Nat.mod_eq_of_lt; omega
  rw [hm, toSigned32]
  split <;> (congr 1; omega)

/-- A signed length prefix of a value below 2^31 is never the null sentinel. -/
theorem long_pack_ne_null (i : Int) (h0 : 0 ≤ i) (h : i < 2 ^ 31) :
    long_pack i ≠ null_sequence := by
  intro heq
  simp only [long_pack, ulong_pack, null_sequence, List.cons.injEq, and_true] at heq
  omega

/-- If `long_unpack` succeeds the slice had exactly four bytes. -/
theorem long_unpack_ok_length {bs : List Nat} {v : Int} (h : long_unpack bs = .ok v) :
    bs.length = 4 := by
  by_contra hne
  rw [long_unpack, if_neg hne] at h
  exact Except.noConfusion h

/-- A record field: a type Oid paired with a nullable raw payload. -/
abbrev RecordField := Nat × Option (List Nat)

/-- One field of a packed record: `oid_pack(x) + (null_sequence or long_pack(len(y)) + y)`
(the bracketed expression of `record_pack`, source lines 333-337). -/
def recordElem : RecordField → List Nat
  | (x, y) =>
    oid_pack x ++
      (match y with
       | none => null_sequence
       | some d => long_pack (d.length : Int) ++ d)

/-- `record_pack(seq)` (source lines 326-337): field-count prefix followed by the
concatenated fields. -/
def record_pack (seq : List RecordField) : List Nat :=
  long_pack (seq.length : Int) ++ (seq.map recordElem).flatten

/-- The field loop of `record_unpack` (source lines 307-324): parse the given number
of fields starting at `offset`, then demand that the buffer is fully consumed.
Python's generator yields fields one at a time; this models full consumption,
collapsing a partial yield followed by a raise into the raised error. -/
def record_fields (data : List Nat) : Nat → Nat → Except PyErr (List RecordField)
  | 0, offset =>
    if (data.length : Int) - (offset : Int) ≠ 0 then .error .extraData else .ok []
  | k + 1, offset =>
    match oid_unpack (pySlice data (offset : Int) ((offset : Int) + 4)) with
    | .error e => .error e
    | .ok typid =>
      if pySlice data ((offset : Int) + 4) ((offset : Int) + 8) = null_sequence then
        match record_fields data k (offset + 8) with
        | .error e => .error e
        | .ok rest => .ok ((typid, none) :: rest)
      else
        match long_unpack (pySlice data ((offset : Int) + 4) ((offset : Int) + 8)) with
        | .error e => .error e
        | .ok size =>
          let att := pySlice data ((offset : Int) + 8) ((offset : Int) + 8 + size)
          if size < -1 ∨ (att.length : Int) ≠ size then .error .insufficientData
          else
            match record_fields data k (offset + 8 + size.toNat) with
            | .error e => .error e
            | .ok rest => .ok ((typid, some att) :: rest)

/-- `record_unpack(data)` (source lines 295-324), fully consumed: read the signed
field count from the first four bytes, then run the field loop from offset 4
(`range(columns)` of a negative count is empty, hence `Int.toNat`). -/
def record_unpack (data : List Nat) : Except PyErr (List RecordField) :=
  match long_unpack (pySlice data 0 4) with
  | .error e => .error e
  | .ok columns => record_fields data columns.toNat 4

theorem oid_pack_length (n : Nat) : (oid_pack n).length = 4 := rfl

theorem oid_unpack_pack (n : Nat) (h : n < 2 ^ 32) : oid_unpack (oid_pack n) = .ok n :=
  ulong_unpack_pack n h

theorem ulong_unpack_of_length {bs : List Nat} (h : bs.length = 4) :
    ulong_unpack bs = .ok (beNat bs) := by
  rw [ulong_unpack, if_pos h]

/-- Four-byte specialisation of `pySlice_append`. -/
theorem pySlice_append4 (a b : List Nat) :
    pySlice (a ++ b) (a.length : Int) ((a.length : Int) + 4) = b.take 4 := by
  have h := pySlice_append a b 4
  norm_num at h
  exact h

theorem pySlice_zero4 (x : List Nat) : pySlice x 0 4 = x.take 4 := by
  have h := pySlice_nat x 0 4
  norm_num at h
  exact h

theorem null_sequence_length : null_sequence.length = 4 := rfl

theorem length_flatten_replicate (n : Nat) (l : List Nat) :
    ((List.replicate n l).flatten).length = n * l.length := by
  induction n with
  | zero => simp
  | succ m ih => simp [List.replicate_succ, ih, Nat.succ_mul]; omega

/-- Parsing `s.length` fields right after an arbitrary consumed prefix recovers `s`. -/
theorem record_fields_append (s : List RecordField) :
    ∀ pre : List Nat,
      (∀ p ∈ s, p.1 < 2 ^ 32) →
      (∀ p ∈ s, (p.2.getD []).length < 2 ^ 31) →
      record_fields (pre ++ (s.map recordElem).flatten) s.length pre.length = .ok s := by
  induction s with
  | nil =>
    intro pre _ _
    simp [record_fields]
  | cons hd tl ih =>
    obtain ⟨t, p⟩ := hd
    intro pre hT hP
    have ht : t < 2 ^ 32 := hT (t, p) (List.mem_cons_self _ _)
    have hT' : ∀ q ∈ tl, q.1 < 2 ^ 32 := fun q hq => hT q (List.mem_cons_of_mem _ hq)
    have hP' : ∀ q ∈ tl, (q.2.getD []).length < 2 ^ 31 :=
      fun q hq => hP q (List.mem_cons_of_mem _ hq)
    cases p with
    | none =>
      have hdata : ((((t, none) : RecordField) :: tl).map recordElem).flatten
          = oid_pack t ++ (null_sequence ++ (tl.map recordElem).flatten) := by
        simp [recordElem]
      rw [hdata, List.length_cons]
      simp only [record_fields]
      have h1 : pySlice (pre ++ (oid_pack t ++ (null_sequence ++ (tl.map recordElem).flatten)))
          (pre.length : Int) ((pre.length : Int) + 4) = oid_pack t := by
        rw [pySlice_append4]
        exact List.take_left' (oid_pack_length t)
      have h2 : pySlice (pre ++ (oid_pack t ++ (null_sequence ++ (tl.map recordElem).flatten)))
          ((pre.length : Int) + 4) ((pre.length : Int) + 8) = null_sequence := by
        have e1 : pre ++ (oid_pack t ++ (null_sequence ++ (tl.map recordElem).flatten))
            = (pre ++ oid_pack t) ++ (null_sequence ++ (tl.map recordElem).flatten) := by
          simp [List.append_assoc]
        have e2 : ((pre.length : Int) + 4) = (((pre ++ oid_pack t).length : Nat) : Int) := by
          simp [List.length_append, oid_pack_length]
        have e3 : ((pre.length : Int) + 8) = (((pre ++ oid_pack t).length : Nat) : Int) + 4 := by
          simp [List.length_append, oid_pack_length] <;> omega
        rw [e1, e2, e3, pySlice_append4]
        exact List.take_left' null_sequence_length
      simp only [h1, oid_unpack_pack t ht, h2, if_pos rfl]
      have hIH := ih (pre ++ oid_pack t ++ null_sequence) hT' hP'
      have e4 : (pre ++ oid_pack t ++ null_sequence) ++ (tl.map recordElem).flatten
          = pre ++ (oid_pack t ++ (null_sequence ++ (tl.map recordElem).flatten)) := by
        simp [List.append_assoc]
      have e5 : (pre ++ oid_pack t ++ null_sequence).length = pre.length + 8 := by
        simp [List.length_append, oid_pack_length, null_sequence_length]
      rw [e4, e5] at hIH
      rw [hIH]
      simp
    | some d =>
      have hd_len : d.length < 2 ^ 31 := by
        have := hP (t, some d) (List.mem_cons_self _ _)
        simpa using this
      have hdata : ((((t, some d) : RecordField) :: tl).map recordElem).flatten
          = oid_pack t ++ (long_pack (d.length : Int) ++ (d ++ (tl.map recordElem).flatten)) := by
        simp [recordElem]
      rw [hdata, List.length_cons]
      simp only [record_fields]
      have h1 : pySlice
          (pre ++ (oid_pack t ++ (long_pack (d.length : Int) ++ (d ++ (tl.map recordElem).flatten))))
          (pre.length : Int) ((pre.length : Int) + 4) = oid_pack t := by
        rw [pySlice_append4]
        exact List.take_left' (oid_pack_length t)
      have e1 : pre ++ (oid_pack t ++ (long_pack (d.length : Int) ++ (d ++ (tl.map recordElem).flatten)))
          = (pre ++ oid_pack t) ++ (long_pack (d.length : Int) ++ (d ++ (tl.map recordElem).flatten)) := by
        simp [List.append_assoc]
      have e2 : ((pre.length : Int) + 4) = (((pre ++ oid_pack t).length : Nat) : Int) := by
        simp [List.length_append, oid_pack_length]
      have e3 : ((pre.length : Int) + 8) = (((pre ++ oid_pack t).length : Nat) : Int) + 4 := by
        simp [List.length_append, oid_pack_length] <;> omega
      have h2 : pySlice
          (pre ++ (oid_pack t ++ (long_pack (d.length : Int) ++ (d ++ (tl.map recordElem).flatten))))
          ((pre.length : Int) + 4) ((pre.length : Int) + 8) = long_pack (d.length : Int) := by
        rw [e1, e2, e3, pySlice_append4]
        exact List.take_left' (long_pack_length _)
      have hdibound : ((d.length : Int)) < 2 ^ 31 := by exact_mod_cast hd_len
      have hnonneg : (0 : Int) ≤ (d.length : Int) := Int.natCast_nonneg _
      simp only [h1, oid_unpack_pack t ht, h2,
        if_neg (long_pack_ne_null (d.length : Int) hnonneg hdibound),
        long_unpack_pack (d.length : Int) (by omega) hdibound]
      have h3 : pySlice
          (pre ++ (oid_pack t ++ (long_pack (d.length : Int) ++ (d ++ (tl.map recordElem).flatten))))
          ((pre.length : Int) + 8) ((pre.length : Int) + 8 + (d.length : Int)) = d := by
        have f1 : pre ++ (oid_pack t ++ (long_pack (d.length : Int) ++ (d ++ (tl.map recordElem).flatten)))
            = (pre ++ oid_pack t ++ long_pack (d.length : Int)) ++ (d ++ (tl.map recordElem).flatten) := by
          simp [List.append_assoc]
        have f2 : ((pre.length : Int) + 8)
            = (((pre ++ oid_pack t ++ long_pack (d.length : Int)).length : Nat) : Int) := by
          simp [List.length_append, oid_pack_length, long_pack_length] <;> omega
        rw [f1, f2, pySlice_append]
        exact List.take_left' rfl
      rw [h3]
      have hcond : ¬ ((d.length : Int) < -1 ∨ ((d.length : Nat) : Int) ≠ (d.length : Int)) := by
        push_neg
        exact ⟨by omega, rfl⟩
      rw [if_neg hcond]
      have hIH := ih (pre ++ oid_pack t ++ long_pack (d.length : Int) ++ d) hT' hP'
      have e4 : (pre ++ oid_pack t ++ long_pack (d.length : Int) ++ d) ++ (tl.map recordElem).flatten
          = pre ++ (oid_pack t ++ (long_pack (d.length : Int) ++ (d ++ (tl.map recordElem).flatten))) := by
        simp [List.append_assoc]
      have e5 : (pre ++ oid_pack t ++ long_pack (d.length : Int) ++ d).length
          = pre.length + 8 + ((d.length : Int)).toNat := by
        simp [List.length_append, oid_pack_length, long_pack_length] <;> omega
      rw [e4, e5] at hIH
      rw [hIH]

/-- C1 (amended): record round-trip.  For every finite sequence of pairs `(t, p)`
with `t` an unsigned 32-bit integer and `p` either null or a byte string whose
length is representable as a signed 32-bit length prefix, and whose pair count is
itself representable in the signed 32-bit field-count prefix, fully consuming
`record_unpack (record_pack s)` yields exactly the pairs of `s`, in order, with no
error.  (The representability of the pair count is the amendment: a sequence of
2^31 pairs wraps the count prefix to a negative value and fails, see the
counterexample.) -/
theorem record_roundtrip (s : List RecordField)
    (hT : ∀ p ∈ s, p.1 < 2 ^ 32)
    (hP : ∀ p ∈ s, (p.2.getD []).length < 2 ^ 31)
    (hN : s.length < 2 ^ 31) :
    record_unpack (record_pack s) = .ok s := by
  have hslice : pySlice (record_pack s) 0 4 = long_pack (s.length : Int) := by
    rw [record_pack, pySlice_zero4]
    exact List.take_left' (long_pack_length _)
  have hNi : ((s.length : Int)) < 2 ^ 31 := by exact_mod_cast hN
  have hcount : long_unpack (pySlice (record_pack s) 0 4) = .ok (s.length : Int) := by
    rw [hslice]
    exact long_unpack_pack _ (by omega) hNi
  have htn : ((s.length : Nat) : Int).toNat = s.length := Int.toNat_natCast _
  simp only [record_unpack, hcount, htn]
  have h := record_fields_append s (long_pack (s.length : Int)) hT hP
  rw [long_pack_length] at h
  exact h

/-- Witness for C1: a concrete two-field record (one payload field, one null field)
round-trips. -/
theorem record_roundtrip_witness :
    record_unpack (record_pack [(7, some [1, 2]), (5, none)]) = .ok [(7, some [1, 2]), (5, none)] :=
  record_roundtrip [(7, some [1, 2]), (5, none)] (by decide) (by decide) (by decide)

/-- Counterexample for C1 as stated: a sequence of 2^31 pairs satisfies the claim's
hypotheses (every Oid is an unsigned 32-bit integer, every payload is null), yet
the round trip fails: the field-count prefix `long_pack 2^31` reads back as the
signed value −2^31, the loop runs zero times and the packed fields are reported as
trailing data. -/
theorem record_roundtrip_cex :
    (∀ p ∈ List.replicate (2 ^ 31) ((0 : Nat), (none : Option (List Nat))),
        p.1 < 2 ^ 32 ∧ (p.2.getD []).length < 2 ^ 31)
    ∧ record_unpack (record_pack (List.replicate (2 ^ 31) ((0 : Nat), (none : Option (List Nat)))))
        = .error .extraData := by
  constructor
  · intro p hp
    have hp' := List.eq_of_mem_replicate hp
    subst hp'
    exact ⟨by norm_num, by norm_num⟩
  · have hlen : (List.replicate (2 ^ 31) ((0 : Nat), (none : Option (List Nat)))).length = 2 ^ 31 :=
      List.length_replicate _ _
    have hslice : pySlice (record_pack (List.replicate (2 ^ 31) ((0 : Nat), none))) 0 4
        = long_pack ((2 ^ 31 : Nat) : Int) := by
      rw [record_pack, pySlice_zero4, hlen]
      exact List.take_left' (long_pack_length _)
    have hdecode : long_unpack (long_pack ((2 ^ 31 : Nat) : Int)) = .ok (-(2 ^ 31)) := by decide
    have htn : ((-(2 ^ 31) : Int)).toNat = 0 := rfl
    simp only [record_unpack, hslice, hdecode, htn]
    have hbody : ((List.replicate (2 ^ 31) ((0 : Nat), (none : Option (List Nat)))).map
        recordElem).flatten.length = 2 ^ 31 * 8 := by
      rw [List.map_replicate, length_flatten_replicate]
      rfl
    have hplen : (record_pack (List.replicate (2 ^ 31) ((0 : Nat), none))).length
        = 4 + 2 ^ 31 * 8 := by
      rw [record_pack, List.length_append, hlen, long_pack_length, hbody]
    simp only [record_fields]
    rw [if_pos]
    rw [hplen]
    norm_num

/-- C5: `record_unpack` rejects malformed records.  First conjunct: `record_unpack`
is the field loop started at offset 4 with the decoded field count.  Second
conjunct: whenever the loop reaches a field whose declared (non-null) payload
length exceeds the bytes remaining after the length prefix, it raises the
insufficient-data error.  Third conjunct: whenever the declared field count is
exhausted with bytes remaining (the buffer length differs from the final offset),
it raises the trailing-data error. -/
theorem record_unpack_malformed (data : List Nat) :
    (∀ c : Int, long_unpack (pySlice data 0 4) = .ok c →
        record_unpack data = record_fields data c.toNat 4)
    ∧ (∀ (k offset : Nat) (size : Int),
        pySlice data ((offset : Int) + 4) ((offset : Int) + 8) ≠ null_sequence →
        long_unpack (pySlice data ((offset : Int) + 4) ((offset : Int) + 8)) = .ok size →
        (data.length : Int) < (offset : Int) + 8 + size →
        record_fields data (k + 1) offset = .error .insufficientData)
    ∧ (∀ offset : Nat, (data.length : Int) ≠ (offset : Int) →
        record_fields data 0 offset = .error .extraData) := by
  refine ⟨?_, ?_, ?_⟩
  · intro c hc
    simp only [record_unpack, hc]
  · intro k offset size hnull hdec hover
    have e4 : ((offset : Int) + 4) = (((offset + 4 : Nat) : Nat) : Int) := by push_cast; ring
    have e8 : ((offset : Int) + 8) = (((offset + 8 : Nat) : Nat) : Int) := by push_cast; ring
    have hlen4 := long_unpack_ok_length hdec
    rw [e4, e8, pySlice_nat_length] at hlen4
    have h8 : offset + 8 ≤ data.length := by omega
    have htyp : oid_unpack (pySlice data (offset : Int) ((offset : Int) + 4))
        = .ok (beNat (pySlice data (offset : Int) ((offset : Int) + 4))) := by
      apply ulong_unpack_of_length
      have := pySlice_nat_length data offset (offset + 4)
      rw [← e4] at this
      rw [this]
      omega
    simp only [record_fields, htyp, if_neg hnull, hdec]
    rw [if_pos]
    by_cases hsneg : size < -1
    · exact Or.inl hsneg
    · right
      by_cases hs0 : 0 ≤ size
      · have e9 : ((offset : Int) + 8 + size) = (((offset + 8 + size.toNat : Nat) : Nat) : Int) := by
          push_cast [Int.toNat_of_nonneg hs0]; ring
        rw [e9, e8, pySlice_nat_length]
        have : min (offset + 8 + size.toNat) data.length = data.length := by omega
        rw [this]
        omega
      · have : (0 : Int) ≤ ((pySlice data ((offset : Int) + 8) ((offset : Int) + 8 + size)).length : Int) :=
          Int.natCast_nonneg _
        omega
  · intro offset h
    simp only [record_fields]
    rw [if_pos]
    omega

/-- Witness for C5: a one-field buffer declaring a 5-byte payload with one byte
left, and a zero-field buffer with four extra bytes, are both rejected. -/
theorem record_unpack_malformed_witness :
    record_fields [0, 0, 0, 9, 0, 0, 0, 5, 65] 1 0 = .error .insufficientData
    ∧ record_fields [0, 0, 0, 0, 65] 0 4 = .error .extraData :=
  ⟨(record_unpack_malformed [0, 0, 0, 9, 0, 0, 0, 5, 65]).2.1 0 0 5 (by decide) (by decide)
      (by decide),
   (record_unpack_malformed [0, 0, 0, 0, 65]).2.2 4 (by decide)⟩

/-- Modelled from the spec: `structlib.llL_unpack`, the `!llL` header decoder (two
signed and one unsigned big-endian 32-bit fields).  `array_unpack` applies it to
the whole buffer to read the fixed 12-byte header, so it reads the first twelve
bytes and fails with `struct.error` when fewer are available. -/
def llL_unpack (data : List Nat) : Except PyErr (Int × Int × Nat) :=
  if 12 ≤ data.length then
    .ok (toSigned32 (beNat (pySlice data 0 4)), toSigned32 (beNat (pySlice data 4 8)),
      beNat (pySlice data 8 12))
  else .error .structError

/-- Modelled from the spec: `struct.unpack_from("!%dl", data, 12)` — read `count`
big-endian signed 32-bit values starting at `offset`. -/
def longs_unpack_from (data : List Nat) : Nat → Nat → List Int
  | _, 0 => []
  | offset, k + 1 =>
    toSigned32 (beNat (pySlice data (offset : Int) ((offset : Int) + 4)))
      :: longs_unpack_from data (offset + 4) k

/-- Result of fully consuming the lazy generator `elements_unpack(data, offset)`
(source lines 379-396): the yielded elements on normal exhaustion, the yielded
prefix and the raised error, or non-termination within the given fuel. -/
inductive ElemRes where
  | done : List (Option (List Nat)) → ElemRes
  | err : List (Option (List Nat)) → PyErr → ElemRes
  | hang : ElemRes
deriving DecidableEq, Repr

/-- Whether consumption raised an error. -/
def ElemRes.isErr : ElemRes → Bool
  | .err _ _ => true
  | _ => false

/-- Prepend one yielded element to a consumption result. -/
def yieldCons (x : Option (List Nat)) : ElemRes → ElemRes
  | .done l => .done (x :: l)
  | .err l e => .err (x :: l) e
  | .hang => .hang

/-- Fully consume `elements_unpack(data, offset)` (source lines 379-396) with the
given iteration fuel.  The loop runs while `offset < len(data)`; each round reads
the four bytes at `offset`, yields `None` on the null sentinel, otherwise decodes
the signed length `s` and yields `data[offset+4 : offset+4+s]`, advancing by
`4 + s`.  A negative `s` moves the offset backwards (hence `Int` offsets and the
fuel bound: the loop need not terminate). -/
def elements_unpack (data : List Nat) : Nat → Int → ElemRes
  | 0, offset =>
    if offset < (data.length : Int) then .hang else .done []
  | fuel + 1, offset =>
    if offset < (data.length : Int) then
      if pySlice data offset (offset + 4) = null_sequence then
        yieldCons none (elements_unpack data fuel (offset + 4))
      else
        match long_unpack (pySlice data offset (offset + 4)) with
        | .error e => .err [] e
        | .ok s =>
          yieldCons (some (pySlice data (offset + 4) (offset + 4 + s)))
            (elements_unpack data fuel (offset + 4 + s))
    else .done []

/-- `array_unpack(data)` (source lines 398-411): decode the 12-byte header, reject
a negative dimension count, read `2*ndim` bound integers from offset 12, and
return flags, element type Oid, bounds, and the lazy element sequence
`elements_unpack(data, end)` — represented here by its start offset
`end = 4*2*ndim + 12` into `data`. -/
def array_unpack (data : List Nat) : Except PyErr (Int × Nat × List Int × Nat) :=
  match llL_unpack data with
  | .error e => .error e
  | .ok (ndim, flags, typid) =>
    if ndim < 0 then .error .invalidDim
    else if data.length < 12 + 4 * (2 * ndim.toNat) then .error .structError
    else .ok (flags, typid, longs_unpack_from data 12 (2 * ndim.toNat), 4 * 2 * ndim.toNat + 12)

/-- C8: for every buffer of at least 12 bytes whose first four bytes decode (as a
big-endian signed 32-bit integer) to a negative dimension count, `array_unpack`
fails with the invalid-dimension error.  The error is raised before any bound
parsing: it holds for every such buffer, including buffers with no room for the
bound integers, and the error is `invalidDim`, not the `structError` that bound
parsing would raise. -/
theorem array_unpack_negative_ndim (data : List Nat)
    (hlen : 12 ≤ data.length)
    (hneg : toSigned32 (beNat (pySlice data 0 4)) < 0) :
    array_unpack data = .error .invalidDim := by
  simp only [array_unpack, llL_unpack, if_pos hlen, if_pos hneg]

/-- Witness for C8: a 12-byte buffer whose dimension-count field decodes to −1. -/
theorem array_unpack_negative_ndim_witness :
    array_unpack [255, 255, 255, 255, 0, 0, 0, 0, 0, 0, 0, 0] = .error .invalidDim :=
  array_unpack_negative_ndim [255, 255, 255, 255, 0, 0, 0, 0, 0, 0, 0, 0]
    (by decide) (by decide)

/-- C9 (amended): on a buffer of exactly 12 bytes (a bare header, nothing after
it) whose header declares dimension count 0, `array_unpack` succeeds with an
empty bound sequence and an element sequence starting at offset 12 that yields no
elements, whatever the fuel.  (The exact-length premise is the amendment: any
bytes beyond the 12-byte header are parsed as elements, see the counterexample.) -/
theorem array_unpack_zero_dim (data : List Nat)
    (hlen : data.length = 12)
    (hzero : toSigned32 (beNat (pySlice data 0 4)) = 0) :
    array_unpack data
        = .ok (toSigned32 (beNat (pySlice data 4 8)), beNat (pySlice data 8 12), [], 12)
    ∧ ∀ fuel, elements_unpack data fuel 12 = .done [] := by
  constructor
  · simp only [array_unpack, llL_unpack, hlen, hzero]
    norm_num [longs_unpack_from]
  · intro fuel
    have h : ¬ ((12 : Int) < (data.length : Int)) := by rw [hlen]; norm_num
    cases fuel with
    | zero => simp only [elements_unpack, if_neg h]
    | succ f => simp only [elements_unpack, if_neg h]

/-- Witness for C9: the all-zero 12-byte header. -/
theorem array_unpack_zero_dim_witness :
    array_unpack [0, 0, 0, 0, 0, 0, 0, 0, 0, 0, 0, 0] = .ok (0, 0, [], 12) :=
  (array_unpack_zero_dim [0, 0, 0, 0, 0, 0, 0, 0, 0, 0, 0, 0] (by decide) (by decide)).1

/-- Counterexample for C9 as stated: a 16-byte buffer whose header declares
dimension count 0 but which carries four further bytes (a null sentinel).
`array_unpack` succeeds, yet consuming the element sequence yields one element
(a null), not none. -/
theorem array_unpack_zero_dim_cex :
    toSigned32 (beNat (pySlice [0, 0, 0, 0, 0, 0, 0, 0, 0, 0, 0, 0, 255, 255, 255, 255] 0 4)) = 0
    ∧ array_unpack [0, 0, 0, 0, 0, 0, 0, 0, 0, 0, 0, 0, 255, 255, 255, 255]
        = .ok (0, 0, [], 12)
    ∧ elements_unpack [0, 0, 0, 0, 0, 0, 0, 0, 0, 0, 0, 0, 255, 255, 255, 255] 1 12
        = .done [none]
    ∧ (ElemRes.done [none] : ElemRes) ≠ .done [] := by
  refine ⟨by decide, by decide, by decide, by decide⟩

/-- Once the offset has reached or passed the end of the buffer, the element loop
exits normally regardless of fuel. -/
theorem elements_unpack_stop (data : List Nat) (offset : Int)
    (h : ¬ offset < (data.length : Int)) :
    ∀ fuel, elements_unpack data fuel offset = .done [] := by
  intro fuel
  cases fuel with
  | zero => simp only [elements_unpack, if_neg h]
  | succ f => simp only [elements_unpack, if_neg h]

/-- C3 (amended): a declared element payload length that exceeds the bytes
remaining after it is not signalled as an error.  When the element loop reaches
offset `o` and the four bytes there are a non-null prefix decoding to `s` with
`o + 4 + s` past the end of the buffer, consuming the sequence yields the
truncated slice `data[o+4 : o+4+s]` as a final element and terminates normally. -/
theorem elements_unpack_overrun (data : List Nat) (o s : Int) (fuel : Nat)
    (ho : o < (data.length : Int))
    (hnull : pySlice data o (o + 4) ≠ null_sequence)
    (hdec : long_unpack (pySlice data o (o + 4)) = .ok s)
    (hover : (data.length : Int) < o + 4 + s) :
    elements_unpack data (fuel + 1) o = .done [some (pySlice data (o + 4) (o + 4 + s))] := by
  simp only [elements_unpack, if_pos ho, if_neg hnull, hdec]
  rw [elements_unpack_stop data (o + 4 + s) (by omega) fuel]
  rfl

/-- Witness for C3's amended theorem: a single element declaring five payload
bytes with only one present is yielded truncated, with no error. -/
theorem elements_unpack_overrun_witness :
    elements_unpack [0, 0, 0, 5, 65] 1 0 = .done [some [65]] :=
  elements_unpack_overrun [0, 0, 0, 5, 65] 0 5 0 (by decide) (by decide) (by decide) (by decide)

/-- Counterexample for C3 as stated: an array buffer (12-byte zero-dimension
header, then one element declaring a 5-byte payload with a single byte left).
The element's declared length exceeds the remaining buffer, yet consuming the
element sequence returned by `array_unpack` (which starts at offset 12) never
raises an error at any fuel: it yields the truncated element and stops. -/
theorem elements_unpack_overrun_cex :
    array_unpack [0, 0, 0, 0, 0, 0, 0, 0, 0, 0, 0, 0, 0, 0, 0, 5, 99] = .ok (0, 0, [], 12)
    ∧ pySlice [0, 0, 0, 0, 0, 0, 0, 0, 0, 0, 0, 0, 0, 0, 0, 5, 99] 12 16 ≠ null_sequence
    ∧ long_unpack (pySlice [0, 0, 0, 0, 0, 0, 0, 0, 0, 0, 0, 0, 0, 0, 0, 5, 99] 12 16) = .ok 5
    ∧ (([0, 0, 0, 0, 0, 0, 0, 0, 0, 0, 0, 0, 0, 0, 0, 5, 99] : List Nat).length : Int) < 12 + 4 + 5
    ∧ ∀ fuel,
        (elements_unpack [0, 0, 0, 0, 0, 0, 0, 0, 0, 0, 0, 0, 0, 0, 0, 5, 99] fuel 12).isErr
          = false := by
  refine ⟨by decide, by decide, by decide, by decide, ?_⟩
  intro fuel
  cases fuel with
  | zero => decide
  | succ f =>
    have h1 : elements_unpack [0, 0, 0, 0, 0, 0, 0, 0, 0, 0, 0, 0, 0, 0, 0, 5, 99] (f + 1) 12
        = yieldCons (some [99])
            (elements_unpack [0, 0, 0, 0, 0, 0, 0, 0, 0, 0, 0, 0, 0, 0, 0, 5, 99] f 21) := rfl
    rw [h1, elements_unpack_stop [0, 0, 0, 0, 0, 0, 0, 0, 0, 0, 0, 0, 0, 0, 0, 5, 99] 21
      (by decide) f]
    rfl

/-- `net_unpack(data)` (source lines 281-293): destructure the four header bytes
`family, mask, is_cidr, size` from `data[:4]` (a `ValueError` if fewer than four
are present), then require the trailing payload `data[4:]` to have exactly the
declared length.  The `is_cidr` byte is read but unused. -/
def net_unpack (data : List Nat) : Except PyErr (Nat × Nat × List Nat) :=
  match data with
  | family :: mask :: _ :: size :: rd =>
    if rd.length ≠ size then .error .invalidSize else .ok (family, mask, rd)
  | _ => .error .valueError

/-- C6: for every buffer of at least four bytes, `net_unpack` raises an error if
and only if the declared length byte (the fourth header byte) differs from the
number of trailing bytes after the 4-byte header; on success it returns the
triple (family, mask, trailing bytes). -/
theorem net_unpack_size_check (family mask is_cidr size : Nat) (rd : List Nat) :
    ((∃ e, net_unpack (family :: mask :: is_cidr :: size :: rd) = .error e)
        ↔ size ≠ rd.length)
    ∧ (size = rd.length →
        net_unpack (family :: mask :: is_cidr :: size :: rd) = .ok (family, mask, rd)) := by
  constructor
  · constructor
    · rintro ⟨e, he⟩
      intro hsz
      rw [net_unpack, if_neg (by omega)] at he
      exact Except.noConfusion he
    · intro hsz
      exact ⟨.invalidSize, by rw [net_unpack, if_pos (by omega)]⟩
  · intro hsz
    rw [net_unpack, if_neg (by omega)]

/-- Witness for C6: a well-sized inet buffer decodes, and a short payload is
rejected. -/
theorem net_unpack_size_check_witness :
    net_unpack [2, 32, 1, 4, 127, 0, 0, 1] = .ok (2, 32, [127, 0, 0, 1])
    ∧ (∃ e, net_unpack [2, 32, 1, 4, 127] = .error e) :=
  ⟨(net_unpack_size_check 2 32 1 4 [127, 0, 0, 1]).2 (by decide),
   (net_unpack_size_check 2 32 1 4 [127]).1.mpr (by decide)⟩

/-- C10: the result of `net_unpack` does not depend on the third header byte (the
`is_cidr` flag): two buffers of at least four bytes that agree everywhere except
at byte index 2 unpack to the same result — the same value, or the same error. -/
theorem net_unpack_ignores_is_cidr (family mask c c' size : Nat) (rd : List Nat) :
    net_unpack (family :: mask :: c :: size :: rd)
      = net_unpack (family :: mask :: c' :: size :: rd) := rfl

/-- Python `int(q)`: truncation toward zero. -/
def pyInt (q : ℚ) : Int :=
  if q < 0 then ⌈q⌉ else ⌊q⌋

/-- `mktime(seconds_ms)` (source lines 85-87): a double out of the pair
(seconds, microseconds), modelled exactly as a rational. -/
def mktime (tt : Int × Int) : ℚ :=
  (tt.1 : ℚ) + (tt.2 : ℚ) / 1000000

/-- `mktimetuple(ts)` (source lines 75-78): split a double into
(seconds, microseconds) via `floor`. -/
def mktimetuple (ts : ℚ) : Int × Int :=
  (⌊ts⌋, pyInt (1000000 * (ts - (⌊ts⌋ : ℚ))))

/-- Modelled from the spec: the `!dl` wire block written by `structlib.dl_pack`
(an 8-byte big-endian IEEE-754 double followed by a signed 32-bit integer).  The
spec treats the primitive width packers as given exact codec pairs, so the block
is modelled by its exact field contents, with the double carried as a rational. -/
structure DLWire where
  t : ℚ
  l : Int
deriving DecidableEq, Repr

/-- Modelled from the spec: `structlib.dl_pack`. -/
def dl_pack (p : ℚ × Int) : DLWire := ⟨p.1, p.2⟩

/-- Modelled from the spec: `structlib.dl_unpack`, the exact inverse. -/
def dl_unpack (w : DLWire) : ℚ × Int := (w.t, w.l)

/-- `interval_noday_pack(month_day_timetup)` (source lines 114-125): if the day
component is non-zero fold `day * 24 * 60 * 60` into the seconds, then pack
`(mktime(timetup), month)`. -/
def interval_noday_pack (mdt : Int × Int × (Int × Int)) : DLWire :=
  let (month, day, timetup) := mdt
  let timetup := if day ≠ 0 then (timetup.1 + day * 24 * 60 * 60, timetup.2) else timetup
  dl_pack (mktime timetup, month)

/-- `interval_noday_unpack(data)` (source lines 127-134): return
`(month, day(always zero), (seconds, microseconds))`. -/
def interval_noday_unpack (w : DLWire) : Int × Int × (Int × Int) :=
  let (tim, month) := dl_unpack w
  (month, 0, mktimetuple tim)

/-- An integral time splits back into whole seconds and zero microseconds. -/
theorem mktimetuple_intCast (s : Int) : mktimetuple ((s : ℚ)) = (s, 0) := by
  simp [mktimetuple, pyInt, Int.floor_intCast]

/-- C7: no-day interval packing folds days into seconds (the packed block holds
`mktime (seconds + day*86400, microseconds)` together with the month) and
unpacking always reports day = 0; in particular `(2, 3, (10, 0))` packs to
259210 seconds with month 2, and unpacking that block yields `(2, 0, (259210, 0))`. -/
theorem interval_noday_spec :
    (∀ m d s us : Int,
        interval_noday_pack (m, d, (s, us)) = dl_pack (mktime (s + d * 24 * 60 * 60, us), m))
    ∧ (∀ w : DLWire, (interval_noday_unpack w).2.1 = 0)
    ∧ interval_noday_pack (2, 3, (10, 0)) = dl_pack (259210, 2)
    ∧ interval_noday_unpack (interval_noday_pack (2, 3, (10, 0))) = (2, 0, (259210, 0)) := by
  refine ⟨?_, ?_, ?_, ?_⟩
  · intro m d s us
    by_cases hd : d = 0
    · subst hd
      simp [interval_noday_pack]
    · simp [interval_noday_pack, hd]
  · intro w
    rfl
  · simp only [interval_noday_pack, dl_pack, mktime]
    norm_num
  · simp only [interval_noday_pack, interval_noday_unpack, dl_pack, dl_unpack, mktime]
    norm_num
    have h : (259210 : ℚ) = ((259210 : Int) : ℚ) := by norm_num
    rw [h, mktimetuple_intCast]

/-- Modelled from the spec: `structlib.double_pack`, the 8-byte big-endian
IEEE-754 double encoder.  The IEEE bit-level mapping is not reproduced; the model
keeps the 8-byte width and a value-derived payload, which is all the framing
claims about `path_pack` depend on. -/
def double_pack (q : ℚ) : List Nat :=
  ulong_pack (q.num % 2 ^ 32).toNat ++ ulong_pack q.den

theorem double_pack_length (q : ℚ) : (double_pack q).length = 8 := rfl

/-- `path_pack(data)` (source lines 42-50): `struct.pack("!l%dd", len(data),
*data)` — the length of the flat coordinate sequence as a signed 32-bit prefix,
followed by the doubles in order. -/
def path_pack (data : List ℚ) : List Nat :=
  long_pack (data.length : Int) ++ (data.map double_pack).flatten

/-- C4 (amended): the 32-bit count prefix written by `path_pack` is the length of
the flat coordinate sequence — twice the point count, not the point count.  For a
sequence of `2*n` doubles (`n` points) the first four bytes encode `2*n` as a
big-endian signed 32-bit integer, followed by the doubles in order. -/
theorem path_pack_count (data : List ℚ) (n : Nat) (h : data.length = 2 * n) :
    pySlice (path_pack data) 0 4 = long_pack ((2 * n : Nat) : Int)
    ∧ path_pack data = long_pack ((2 * n : Nat) : Int) ++ (data.map double_pack).flatten := by
  constructor
  · rw [path_pack, pySlice_zero4, h]
    exact List.take_left' (long_pack_length _)
  · rw [path_pack, h]

/-- Witness for C4's amended theorem: one point (two doubles) gets count prefix 2. -/
theorem path_pack_count_witness :
    pySlice (path_pack [0, 0]) 0 4 = long_pack 2 :=
  (path_pack_count [0, 0] 1 rfl).1

/-- Counterexample for C4 as stated: for the flat sequence `[0, 0]`, one point
(`n = 1`), the first four bytes of the output are `long_pack 2`, not the point
count `long_pack 1`. -/
theorem path_pack_count_cex :
    pySlice (path_pack [0, 0]) 0 4 = long_pack 2
    ∧ long_pack 2 ≠ long_pack 1 := by
  refine ⟨?_, by decide⟩
  rw [path_pack, pySlice_zero4]
  exact List.take_left' (long_pack_length _)

/-- The fill argument of Python `bytes.ljust`: a one-byte `bytes` object is
required; a `str` raises `TypeError` in Python 3. -/
inductive PyFill where
  | strFill : String → PyFill
  | bytesFill : List Nat → PyFill

/-- Python 3 `b.ljust(width, fill)`: pad `b` with the fill byte up to `width`.
Raises `TypeError` unless `fill` is a `bytes` object of length one. -/
def bytesLjust (b : List Nat) (width : Nat) : PyFill → Except PyErr (List Nat)
  | .strFill _ => .error .typeError
  | .bytesFill f =>
    if f.length = 1 then .ok (b ++ List.replicate (width - b.length) (f.headD 0))
    else .error .typeError

/-- `oidvector_pack(seq)` (source lines 218-224): `struct.pack("!%dL", *seq)`
padded with `.ljust(128, '\x00')` — note the fill character in the source is the
`str` `'\x00'`, not the bytes object `b'\x00'`. -/
def oidvector_pack (seq : List Nat) : Except PyErr (List Nat) :=
  bytesLjust ((seq.map ulong_pack).flatten) 128 (.strFill "\x00")

/-- C2: `oidvector_pack([1, 2, 3])` does not return 128 bytes — it raises
`TypeError`, because the source passes the `str` `'\x00'` as the fill character
of `bytes.ljust`, which Python 3 rejects.  (Under the documented intent — padding
with zero bytes to 128 — the call would succeed; see
`oidvector_pack_intended`.) -/
theorem oidvector_pack_typeerror :
    oidvector_pack [1, 2, 3] = .error .typeError := rfl

set_option maxRecDepth 4000 in
/-- With the evidently intended one-byte `bytes` fill, the same input yields
exactly 128 bytes: the three big-endian 32-bit values followed by zero padding. -/
theorem oidvector_pack_intended :
    bytesLjust (([1, 2, 3].map ulong_pack).flatten) 128 (.bytesFill [0])
      = .ok (ulong_pack 1 ++ ulong_pack 2 ++ ulong_pack 3 ++ List.replicate 116 0)
    ∧ (ulong_pack 1 ++ ulong_pack 2 ++ ulong_pack 3 ++ List.replicate 116 0).length = 128 := by
  constructor
  · decide
  · decide
